import Mathlib

/-!
Verification of the sitegen static-site builder (package sitegen).

The definitions below are a shallow embedding of the Go source in
website.go and of the attribute parser exercised by sitegen_test.go.
Byte slices are modelled as `List Nat`, Go strings as Lean `String`
manipulated through their `.data` character lists, fallible Go
functions as `Option`/`Except`, and a Go runtime panic (an
out-of-range slice expression) as an outer `none`.
-/

/-! ## Splitter (website.go, splitContent) -/

/-- The bytes of a string, modelling a Go byte slice. -/
def bytesOf (s : String) : List Nat := s.data.map Char.toNat

/-- startDelim from splitContent: the bytes of the opening line. -/
def startDelim : List Nat := bytesOf ("---\n")

/-- endDelim from splitContent: the bytes of the terminating sequence. -/
def endDelim : List Nat := bytesOf ("\n---\n\n")

/-- Model of Go bytes.Index: index of the first occurrence of needle in hay,
scanning from position 0, or none when there is no occurrence
(Go returns -1 there). -/
def goIndex : List Nat → List Nat → Option Nat
  | [], needle => if needle.isPrefixOf ([] : List Nat) then some 0 else none
  | a :: t, needle =>
    if needle.isPrefixOf (a :: t) then some 0
    else (goIndex t needle).map (fun k => k + 1)

/-- Model of the Go slice expression s[low:high]: defined exactly when
0 ≤ low ≤ high ≤ len(s); otherwise Go panics, modelled as none. -/
def goSlice (s : List Nat) (low high : Nat) : Option (List Nat) :=
  if low ≤ high ∧ high ≤ s.length then some ((s.take high).drop low) else none

/-- splitContent (website.go): if the content starts with startDelim, look for
the first occurrence of endDelim over the whole byte slice; no occurrence is
the error return, an occurrence yields the two slice expressions
content[len(startDelim):endIndex] and content[endIndex+len(endDelim):len(content)].
Without the opening delimiter the front matter is empty and the body is the
input itself.  The outer Option is the panic layer of the two slice
expressions. -/
def splitContent (content : List Nat) : Option (Except String (List Nat × List Nat)) :=
  if startDelim.isPrefixOf content then
    match goIndex content endDelim with
    | none => some (Except.error ("No end delimiter found for metadata!"))
    | some endIndex =>
      match goSlice content startDelim.length endIndex,
            goSlice content (endIndex + endDelim.length) content.length with
      | some frontMatter, some body => some (Except.ok (frontMatter, body))
      | _, _ => none
  else
    some (Except.ok ([], content))

/-! ## Metadata decoder (website.go, Metadata.UnmarshalYAML) -/

/-- A parsed wall-clock timestamp; the hardcoded Europe/Brussels location of
time.ParseInLocation only fixes the absolute instant of these wall-clock
fields and is not itself observable in any claim. -/
structure GoTime where
  year : Nat
  month : Nat
  day : Nat
  hour : Nat
  minute : Nat
  second : Nat
deriving DecidableEq

/-- Digit parse for Go time parsing. -/
def parseDigit (c : Char) : Option Nat :=
  if '0' ≤ c ∧ c ≤ '9' then some (c.toNat - 48) else none

/-- Exactly two digits, as Go getnum with fixed width for layouts 01 02 15 04 05. -/
def parseFixed2 : List Char → Option (Nat × List Char)
  | a :: b :: rest =>
    match parseDigit a, parseDigit b with
    | some x, some y => some (x * 10 + y, rest)
    | _, _ => none
  | _ => none

/-- Exactly four digits, as Go parsing of the 2006 year component. -/
def parseFixed4 : List Char → Option (Nat × List Char)
  | a :: b :: c :: d :: rest =>
    match parseDigit a, parseDigit b, parseDigit c, parseDigit d with
    | some w, some x, some y, some z => some (((w * 10 + x) * 10 + y) * 10 + z, rest)
    | _, _, _, _ => none
  | _ => none

/-- A mandatory literal separator character of the layout. -/
def expectChar (c : Char) : List Char → Option (List Char)
  | d :: rest => if d = c then some rest else none
  | [] => none

def isLeapYear (y : Nat) : Bool :=
  y % 4 == 0 && (y % 100 != 0 || y % 400 == 0)

def daysInMonth (y m : Nat) : Nat :=
  if m = 2 then (if isLeapYear y then 29 else 28)
  else if m = 4 ∨ m = 6 ∨ m = 9 ∨ m = 11 then 30
  else 31

/-- Model of time.ParseInLocation with the fixed layout 2006-01-02 15:04:05:
four year digits, two fixed digits for each other component, the literal
separators, no trailing text, and the range validation Go performs. -/
def parseInLocation (s : String) : Option GoTime :=
  match parseFixed4 s.data with
  | none => none
  | some (y, r1) =>
    match expectChar '-' r1 with
    | none => none
    | some r2 =>
      match parseFixed2 r2 with
      | none => none
      | some (mo, r3) =>
        match expectChar '-' r3 with
        | none => none
        | some r4 =>
          match parseFixed2 r4 with
          | none => none
          | some (d, r5) =>
            match expectChar ' ' r5 with
            | none => none
            | some r6 =>
              match parseFixed2 r6 with
              | none => none
              | some (h, r7) =>
                match expectChar ':' r7 with
                | none => none
                | some r8 =>
                  match parseFixed2 r8 with
                  | none => none
                  | some (mi, r9) =>
                    match expectChar ':' r9 with
                    | none => none
                    | some r10 =>
                      match parseFixed2 r10 with
                      | none => none
                      | some (sec, r11) =>
                        if r11 = [] ∧ 1 ≤ mo ∧ mo ≤ 12 ∧ 1 ≤ d ∧
                            d ≤ daysInMonth y mo ∧ h ≤ 23 ∧ mi ≤ 59 ∧ sec ≤ 59 then
                          some (GoTime.mk y mo d h mi sec)
                        else none

/-- The intermediate record the YAML decoder fills (website.go, metadataTime);
a field missing from the metadata block is left at the Go zero value,
the empty string for Date. -/
structure metadataTime where
  Title : String
  Template : String
  Date : String
deriving DecidableEq

/-- The decoded metadata record (website.go, Metadata); the zero time.Time of
an untouched Date field is modelled as none. -/
structure Metadata where
  Title : String
  Template : String
  Date : Option GoTime
deriving DecidableEq

/-- Metadata.UnmarshalYAML (website.go): after the opaque YAML decode into the
metadataTime record (given here as the argument), the Date string is always
passed to time.ParseInLocation; only on success are the fields copied over.
The error return is the parse error of the date string. -/
def Metadata.UnmarshalYAML (md : metadataTime) : Except String Metadata :=
  match parseInLocation md.Date with
  | none => Except.error ("cannot parse " ++ md.Date ++ " with layout 2006-01-02 15:04:05")
  | some t => Except.ok (Metadata.mk md.Title md.Template (some t))

/-! ## String utilities used by the crawler, processor and writer -/

/-- isContentFile (website.go): a name is content iff it ends in .html or .md. -/
def isContentFile (filename : String) : Bool :=
  (".html".data).isSuffixOf filename.data || (".md".data).isSuffixOf filename.data

/-- Model of strings.Split(s, ".") on character lists. -/
def splitOnDot : List Char → List (List Char)
  | [] => [[]]
  | c :: rest =>
    if c = '.' then [] :: splitOnDot rest
    else
      match splitOnDot rest with
      | [] => [[c]]
      | h :: t => (c :: h) :: t

/-- The output name of a content file (website.go, readDir): all but the last
dot-separated part, rejoined with dots, with .html appended. -/
def outName (filename : String) : String :=
  (List.intercalate ['.'] (splitOnDot filename.data).dropLast ++ (".html".data)).asString

/-- Model of strings.TrimPrefix. -/
def trimLeading (s pre : String) : String :=
  if pre.data.isPrefixOf s.data then ((s.data).drop (pre.data).length).asString else s

/-- Model of strings.TrimSuffix. -/
def trimTrailing (s suf : String) : String :=
  if suf.data.isSuffixOf s.data then
    ((s.data).take ((s.data).length - (suf.data).length)).asString
  else s

/-- Model of strings.Replace(s, old, new, 1) on character lists. -/
def replaceOnceL (old new : List Char) : List Char → List Char
  | [] => if old.isPrefixOf ([] : List Char) then new else []
  | c :: rest =>
    if old.isPrefixOf (c :: rest) then new ++ (c :: rest).drop old.length
    else c :: replaceOnceL old new rest

/-- Model of strings.Replace(s, old, new, 1). -/
def stringsReplaceOnce (s old new : String) : String :=
  (replaceOnceL old.data new.data s.data).asString

/-- The output URL set by ContentItem.Process (website.go):
strings.TrimSuffix(strings.TrimPrefix(FullPath, "content/."), "index.html"). -/
def computeUrl (fullPath : String) : String :=
  trimTrailing (trimLeading fullPath ("content/.")) ("index.html")

/-! ## The content tree (website.go, ContentItem)

The tree is a mutual inductive pair so that all functions over it are
structural and evaluate inside the kernel.  The Content and Metadata fields
of the Go struct hold the rendered body and decoded front matter; no claim
below observes them, so the embedding carries the fields every claim does
observe: Filename, FullPath, Url, Type, Children and Extra (the opaque
processor value, modelled as a string). -/

inductive ContentType where
  | content
  | directory
  | asset
deriving DecidableEq

mutual
inductive ContentItem : Type where
  | mk : String → String → String → ContentType → ContentForest → Option String → ContentItem

inductive ContentForest : Type where
  | nil : ContentForest
  | cons : ContentItem → ContentForest → ContentForest
end

def ContentItem.Filename : ContentItem → String
  | ContentItem.mk fn _ _ _ _ _ => fn

def ContentItem.FullPath : ContentItem → String
  | ContentItem.mk _ fp _ _ _ _ => fp

def ContentItem.Url : ContentItem → String
  | ContentItem.mk _ _ u _ _ _ => u

def ContentItem.Type : ContentItem → ContentType
  | ContentItem.mk _ _ _ ty _ _ => ty

def ContentItem.Children : ContentItem → ContentForest
  | ContentItem.mk _ _ _ _ ch _ => ch

def ContentItem.Extra : ContentItem → Option String
  | ContentItem.mk _ _ _ _ _ ex => ex

def ContentForest.length : ContentForest → Nat
  | ContentForest.nil => 0
  | ContentForest.cons _ rest => rest.length + 1

/-- The n-th tree of a forest, used to look inside concrete results. -/
def ContentForest.get? : ContentForest → Nat → Option ContentItem
  | ContentForest.nil, _ => none
  | ContentForest.cons c _, 0 => some c
  | ContentForest.cons _ rest, n + 1 => rest.get? n

/-! ## Crawler (website.go, readDir / ContentItem.Parse)

The source directory tree handed to the crawler: a file carries the result
of ioutil.ReadFile (none is a read error), a directory carries its listing
in order.  Directory listings themselves always succeed in this model; a
listing failure aborts the whole crawl in the source and no claim below is
about that fatal path. -/

mutual
inductive FsTree : Type where
  | file : String → Option (List Nat) → FsTree
  | dir : String → FsForest → FsTree

inductive FsForest : Type where
  | nil : FsForest
  | cons : FsTree → FsForest → FsForest
end

def FsForest.length : FsForest → Nat
  | FsForest.nil => 0
  | FsForest.cons _ rest => rest.length + 1

/-- parseContent (website.go) at the granularity the crawl state observes:
a read failure or a splitContent error is the inner error; after a
successful split the yaml.Unmarshal error is discarded by the source and
Markdown rendering is total, so the parse succeeds.  The outer none is the
splitContent slice panic propagating. -/
def parseContent (fullPath : String) (bytes : Option (List Nat)) : Option (Option String) :=
  match bytes with
  | none => some (some ("open " ++ fullPath ++ ": read error"))
  | some data =>
    match splitContent data with
    | none => none
    | some (Except.error e) => some (some e)
    | some (Except.ok _) => some none

/-- ContentItem.Parse (website.go): runs parseContent and assigns any error
to the shared parseError slot, overwriting whatever was there; on success
the slot is left untouched.  The argument st is the slot before the call,
the result is the slot after it. -/
def ContentItem.Parse (st : Option String) (fullPath : String) (bytes : Option (List Nat)) :
    Option (Option String) :=
  match parseContent fullPath bytes with
  | none => none
  | some none => some st
  | some (some e) => some (some e)

mutual
/-- One iteration of the readDir loop body (website.go): name-based content
classification first (so even a directory whose name ends in .md is treated
as a content file, where reading it then fails), then the directory recursion,
then the asset fallback. -/
def crawlEntry (path : String) : FsTree → Option String → Option (ContentItem × Option String)
  | FsTree.file name bytes, st =>
    if isContentFile name then
      match ContentItem.Parse st (path ++ "/" ++ name) bytes with
      | none => none
      | some st2 =>
        some (ContentItem.mk (outName name) (path ++ "/" ++ name) "" ContentType.content
          ContentForest.nil none, st2)
    else
      some (ContentItem.mk name (path ++ "/" ++ name) "" ContentType.asset
        ContentForest.nil none, st)
  | FsTree.dir name entries, st =>
    if isContentFile name then
      match ContentItem.Parse st (path ++ "/" ++ name) none with
      | none => none
      | some st2 =>
        some (ContentItem.mk (outName name) (path ++ "/" ++ name) "" ContentType.content
          ContentForest.nil none, st2)
    else
      match crawlEntries (path ++ "/" ++ name) entries st with
      | none => none
      | some (cs, st2) =>
        some (ContentItem.mk name (path ++ "/" ++ name) "" ContentType.directory cs none, st2)

/-- The readDir loop over a directory listing, building the child list in
order and threading the parseError slot left to right. -/
def crawlEntries (path : String) : FsForest → Option String → Option (ContentForest × Option String)
  | FsForest.nil, st => some (ContentForest.nil, st)
  | FsForest.cons e rest, st =>
    match crawlEntry path e st with
    | none => none
    | some (c, st2) =>
      match crawlEntries path rest st2 with
      | none => none
      | some (cs, st3) => some (ContentForest.cons c cs, st3)
end

/-- readDir (website.go): builds the Directory node for name under path and
crawls its listing. -/
def readDir (name path : String) (entries : FsForest) (st : Option String) :
    Option (ContentItem × Option String) :=
  match crawlEntries (path ++ "/" ++ name) entries st with
  | none => none
  | some (cs, st2) =>
    some (ContentItem.mk name (path ++ "/" ++ name) "" ContentType.directory cs none, st2)

mutual
/-- The per-file parse results a crawl of this tree performs, in traversal
order; each element is the parseContent result of one content-classified
entry. -/
def outcomesTree (path : String) : FsTree → List (Option (Option String))
  | FsTree.file name bytes =>
    if isContentFile name then [parseContent (path ++ "/" ++ name) bytes] else []
  | FsTree.dir name entries =>
    if isContentFile name then [parseContent (path ++ "/" ++ name) none]
    else outcomesForest (path ++ "/" ++ name) entries

def outcomesForest (path : String) : FsForest → List (Option (Option String))
  | FsForest.nil => []
  | FsForest.cons e rest => outcomesTree path e ++ outcomesForest path rest
end

/-- How one parse result updates the parseError slot in the source: an error
overwrites the slot, success and the (unreachable past a completed crawl)
panic leave it unchanged. -/
def recordOutcome (st : Option String) (o : Option (Option String)) : Option String :=
  match o with
  | some (some e) => some e
  | _ => st

/-! ## Processor (website.go, ContentItem.Process) -/

mutual
/-- ContentItem.Process (website.go): set Url, call the registered processor,
on error assign processError and return at once (children are not visited),
on success store Extra and recurse into the children.  The slot is threaded
as state. -/
def processItem (proc : ContentItem → Except String String) :
    ContentItem → Option String → ContentItem × Option String
  | ContentItem.mk fn fp _ ty ch ex, st =>
    let c1 := ContentItem.mk fn fp (computeUrl fp) ty ch ex
    match proc c1 with
    | Except.error e => (c1, some e)
    | Except.ok extra =>
      match processForest proc ch st with
      | (ch2, st2) => (ContentItem.mk fn fp (computeUrl fp) ty ch2 (some extra), st2)

/-- The recursion of Process over a child list, left to right. -/
def processForest (proc : ContentItem → Except String String) :
    ContentForest → Option String → ContentForest × Option String
  | ContentForest.nil, st => (ContentForest.nil, st)
  | ContentForest.cons c rest, st =>
    match processItem proc c st with
    | (c2, st2) =>
      match processForest proc rest st2 with
      | (rest2, st3) => (ContentForest.cons c2 rest2, st3)
end

/-- content.Process() as called from Start with the registered processor. -/
def ContentItem.Process (proc : ContentItem → Except String String)
    (c : ContentItem) (st : Option String) : ContentItem × Option String :=
  processItem proc c st

/-! ## Writer and write queue (website.go, ContentItem.Write / ContentQueue) -/

/-- The filesystem action a write unit performs. -/
inductive WriteAction where
  | mkdirAll : String → WriteAction
  | writeContent : String → WriteAction
  | copyFile : String → String → WriteAction
deriving DecidableEq

/-- One queue item (website.go, ContentQueueItem): the output path of its node
and the action its goroutine performs.  The action runs inside the spawned
goroutine; the traversal itself performs no filesystem action. -/
structure WriteUnit where
  outPath : String
  action : WriteAction
deriving DecidableEq

mutual
/-- ContentItem.Write (website.go, queue variant): insert a unit for this very
node (whatever its type, directories included), spawn its goroutine, then
recurse into the children with the extended path.  The returned list is the
queue in insertion order. -/
def writeItem (path : String) : ContentItem → List WriteUnit
  | ContentItem.mk fn fp _ ty ch _ =>
    WriteUnit.mk (path ++ "/" ++ fn)
      (match ty with
       | ContentType.directory => WriteAction.mkdirAll (path ++ "/" ++ fn)
       | ContentType.content => WriteAction.writeContent (path ++ "/" ++ fn)
       | ContentType.asset => WriteAction.copyFile fp (stringsReplaceOnce fp ("content/.") ("static")))
      :: writeForest (path ++ "/" ++ fn) ch

def writeForest (path : String) : ContentForest → List WriteUnit
  | ContentForest.nil => []
  | ContentForest.cons c rest => writeItem path c ++ writeForest path rest
end

/-- content.Write("static", queue) as called from Start: the queue contents
after the traversal, in insertion order. -/
def ContentItem.Write (path : String) (c : ContentItem) : List WriteUnit :=
  writeItem path c

/-- Spawned goroutines are mutually unsynchronised: the memory model permits
any execution order of the registered units, so an order is realizable
exactly when it is a permutation of the insertion-ordered queue. -/
def realizableOrder (queue order : List WriteUnit) : Prop :=
  queue.Perm order

mutual
/-- The number of nodes of a tree, every node counted: each one is inserted
into the queue by Write. -/
def nodesItem : ContentItem → Nat
  | ContentItem.mk _ _ _ _ ch _ => nodesForest ch + 1

def nodesForest : ContentForest → Nat
  | ContentForest.nil => 0
  | ContentForest.cons c rest => nodesItem c + nodesForest rest
end

mutual
/-- The number of Content plus Asset nodes only. -/
def writeTargetsItem : ContentItem → Nat
  | ContentItem.mk _ _ _ ty ch _ =>
    writeTargetsForest ch + (match ty with | ContentType.directory => 0 | _ => 1)

def writeTargetsForest : ContentForest → Nat
  | ContentForest.nil => 0
  | ContentForest.cons c rest => writeTargetsItem c + writeTargetsForest rest
end

/-- ContentQueue.Wait (website.go): receive one completion signal per queue
item, in insertion order (the channels are buffered, so completion order
does not matter).  Each entry of the argument says whether that unit ever
signals; a unit whose goroutine hit an error returns without signalling, on
which the receive blocks forever, modelled as none.  On returning, the
result is the number of signals observed. -/
def ContentQueue.Wait : List Bool → Option Nat
  | [] => some 0
  | b :: rest => if b then (ContentQueue.Wait rest).map (fun n => n + 1) else none

/-! ## Markdown renderer custom code block (website.go, renderer.BlockCode) -/

/-- Model of Go unicode.IsSpace: the Unicode White_Space property. -/
def goIsSpace (c : Char) : Bool :=
  let n := c.toNat
  decide (9 ≤ n ∧ n ≤ 13) || decide (n = 32) || decide (n = 133) || decide (n = 160) ||
    decide (n = 5760) || decide (8192 ≤ n ∧ n ≤ 8202) || decide (n = 8232) ||
    decide (n = 8233) || decide (n = 8239) || decide (n = 8287) || decide (n = 12288)

/-- Model of strings.TrimRightFunc: remove the maximal run of trailing
characters satisfying f. -/
def goTrimRightFunc (s : String) (f : Char → Bool) : String :=
  ((s.data.reverse.dropWhile f).reverse).asString

/-- renderer.BlockCode (website.go): the sequence of WriteString calls the
method performs on the output buffer, folded into the emitted fragment. -/
def BlockCode (text lang : String) : String :=
  (["<highlight language=\"", lang, "\">", goTrimRightFunc text goIsSpace, "</highlight>"]).foldl
    (fun a b => a ++ b) ""

/-! ## Attribute parser

Modelled from the spec: the parseAttributes function itself is not among the
source files, only its tests are; section 4.3 of the spec defines it.  It
parses a whitespace-separated sequence of key="value" or key='value' pairs,
unescaping a backslash-escaped quote character of either kind inside a
value; a malformed token (no equals sign, value not quoted, unterminated
quote) is skipped silently and the parser never fails.  A backslash before
any other character is kept literally, the one behaviour the spec leaves
open. -/

/-- Reads a quoted value up to the closing quote q; the flag marks a pending
backslash.  Returns the unescaped value and the input after the closing
quote, or none when the quote is never terminated. -/
def parseValueAux (q : Char) : List Char → Bool → Option (List Char × List Char)
  | [], _ => none
  | c :: rest, true =>
    if c = '"' ∨ c = '\'' then
      (parseValueAux q rest false).map (fun p => (c :: p.1, p.2))
    else
      (parseValueAux q rest false).map (fun p => ('\\' :: c :: p.1, p.2))
  | c :: rest, false =>
    if c = q then some ([], rest)
    else if c = '\\' then parseValueAux q rest true
    else (parseValueAux q rest false).map (fun p => (c :: p.1, p.2))

/-- The token loop of the attribute parser; the fuel only bounds the number of
iterations and every iteration consumes at least one character, so any fuel
of at least the input length gives the parse. -/
def parseAttrsLoop : Nat → List Char → List (String × String)
  | 0, _ => []
  | _ + 1, [] => []
  | n + 1, c :: rest =>
    if c.isWhitespace then parseAttrsLoop n rest
    else
      let key := (c :: rest).takeWhile (fun ch => !ch.isWhitespace && !(ch = '='))
      match (c :: rest).drop key.length with
      | '=' :: q :: vrest =>
        if q = '"' ∨ q = '\'' then
          match parseValueAux q vrest false with
          | some (v, r) => (key.asString, v.asString) :: parseAttrsLoop n r
          | none => []
        else parseAttrsLoop n (((c :: rest).drop key.length).dropWhile (fun ch => !ch.isWhitespace))
      | _ => parseAttrsLoop n (((c :: rest).drop key.length).dropWhile (fun ch => !ch.isWhitespace))

/-- parseAttributes (spec section 4.3, exercised by TestParseAttrs): the
mapping of the validly formed pairs found in the input, in order. -/
def parseAttributes (s : String) : List (String × String) :=
  parseAttrsLoop (s.data.length + 1) s.data

/-! ## Concrete instances used by the counterexamples and witnesses -/

/-- A document whose front matter is empty: the opening line is immediately
followed by the closing line.  The first occurrence of endDelim is at
index 3, inside the opening delimiter. -/
def overlapDoc : List Nat := bytesOf ("---\n---\n\nhello")

/-- The same shape with the body from the implicit claim. -/
def overlapDocBody : List Nat := bytesOf ("---\n---\n\nbody")

/-- A well-formed document, the TestSplit input. -/
def wellFormedDoc : List Nat :=
  bytesOf ("---\ntitle: Testing a new page generator!\n---\n\n# Yup\n\nThis **works**!\n")

/-- A directory listing with two unreadable content files: both parse steps
fail, with distinct errors. -/
def twoFailures : FsForest :=
  FsForest.cons (FsTree.file ("a.md") none)
    (FsForest.cons (FsTree.file ("b.md") none) FsForest.nil)

/-- The tree readDir builds out of twoFailures. -/
def twoFailuresItem : ContentItem :=
  ContentItem.mk (".") ("content/.") "" ContentType.directory
    (ContentForest.cons
      (ContentItem.mk ("a.html") ("content/./a.md") "" ContentType.content ContentForest.nil none)
      (ContentForest.cons
        (ContentItem.mk ("b.html") ("content/./b.md") "" ContentType.content ContentForest.nil none)
        ContentForest.nil))
    none

/-- A processor failing exactly on the node named bad.html. -/
def procFailsOnBad : ContentItem → Except String String :=
  fun c => if c.Filename = "bad.html" then Except.error ("boom") else Except.ok ("v")

/-- A crawled tree: the root holds a failing directory node bad.html with one
child kid.html, then a sibling good.html. -/
def processDemoTree : ContentItem :=
  ContentItem.mk (".") ("content/.") "" ContentType.directory
    (ContentForest.cons
      (ContentItem.mk ("bad.html") ("content/./bad") "" ContentType.directory
        (ContentForest.cons
          (ContentItem.mk ("kid.html") ("content/./bad/kid.html") "" ContentType.content
            ContentForest.nil none)
          ContentForest.nil)
        none)
      (ContentForest.cons
        (ContentItem.mk ("good.html") ("content/./good.html") "" ContentType.content
          ContentForest.nil none)
        ContentForest.nil))
    none

/-- A root directory holding one asset, as crawled from content/. -/
def dirWithAsset : ContentItem :=
  ContentItem.mk (".") ("content/.") "" ContentType.directory
    (ContentForest.cons
      (ContentItem.mk ("logo.png") ("content/./logo.png") "" ContentType.asset
        ContentForest.nil none)
      ContentForest.nil)
    none

/-- The write unit of the root directory of dirWithAsset. -/
def dirUnit : WriteUnit :=
  WriteUnit.mk ("static/.") (WriteAction.mkdirAll ("static/."))

/-- The write unit of the asset of dirWithAsset. -/
def assetUnit : WriteUnit :=
  WriteUnit.mk ("static/./logo.png")
    (WriteAction.copyFile ("content/./logo.png") ("static/logo.png"))

/-- The child below the failing node of processDemoTree. -/
def kidNode : ContentItem :=
  ContentItem.mk ("kid.html") ("content/./bad/kid.html") "" ContentType.content
    ContentForest.nil none

/-- The children forest of the failing node of processDemoTree. -/
def badChildren : ContentForest := ContentForest.cons kidNode ContentForest.nil

/-- The failing node of processDemoTree, as crawled (no URL yet). -/
def badNode : ContentItem :=
  ContentItem.mk ("bad.html") ("content/./bad") "" ContentType.directory badChildren none

/-- The sibling after the failing node of processDemoTree. -/
def goodNode : ContentItem :=
  ContentItem.mk ("good.html") ("content/./good.html") "" ContentType.content
    ContentForest.nil none

/-- The sibling list following the failing node. -/
def goodSiblings : ContentForest := ContentForest.cons goodNode ContentForest.nil

deriving instance DecidableEq for Except

/-! # Theorems

First the helper lemmas, then one theorem per claim (with its witness or
counterexample where applicable). -/

/-- A found first occurrence is what goIndex returns. -/
theorem goIndex_first : ∀ (i : Nat) (c n : List Nat),
    n.isPrefixOf (c.drop i) = true →
    (∀ j, j < i → n.isPrefixOf (c.drop j) = false) →
    goIndex c n = some i
  | 0, [], n, h1, _ => by
    simp only [List.drop_zero] at h1
    simp [goIndex, h1]
  | 0, a :: t, n, h1, _ => by
    simp only [List.drop_zero] at h1
    simp [goIndex, h1]
  | i + 1, [], n, h1, h2 => by
    have h0 := h2 0 (Nat.succ_pos i)
    simp only [List.drop_nil] at h1 h0
    rw [h0] at h1
    exact Bool.noConfusion h1
  | i + 1, a :: t, n, h1, h2 => by
    have h0 : n.isPrefixOf (a :: t) = false := by
      have := h2 0 (Nat.succ_pos i)
      simpa using this
    have ih := goIndex_first i t n (by simpa using h1)
      (fun j hj => by simpa using h2 (j + 1) (Nat.succ_lt_succ hj))
    simp [goIndex, h0, ih]

/-- What goIndex returns is an occurrence. -/
theorem goIndex_at : ∀ (c n : List Nat) (i : Nat),
    goIndex c n = some i → n.isPrefixOf (c.drop i) = true
  | [], n, i, h => by
    cases hp : n.isPrefixOf ([] : List Nat) with
    | true =>
      simp [goIndex, hp] at h
      subst h
      simpa using hp
    | false => simp [goIndex, hp] at h
  | a :: t, n, i, h => by
    cases hp : n.isPrefixOf (a :: t) with
    | true =>
      simp [goIndex, hp] at h
      subst h
      simpa using hp
    | false =>
      simp only [goIndex, hp, Bool.false_eq_true, if_false] at h
      cases hk : goIndex t n with
      | none => rw [hk] at h; exact Option.noConfusion h
      | some k =>
        rw [hk] at h
        simp at h
        have ih := goIndex_at t n k hk
        subst h
        simpa using ih

/-- goIndex finds nothing exactly when no position carries an occurrence. -/
theorem goIndex_none_iff : ∀ (c n : List Nat),
    goIndex c n = none ↔ ∀ j, n.isPrefixOf (c.drop j) = false
  | [], n => by
    cases hp : n.isPrefixOf ([] : List Nat) with
    | true =>
      constructor
      · intro h
        simp [goIndex, hp] at h
      · intro h
        have := h 0
        simp only [List.drop_zero] at this
        rw [this] at hp
        exact Bool.noConfusion hp
    | false =>
      constructor
      · intro _ j
        simpa [List.drop_nil] using hp
      · intro _
        simp [goIndex, hp]
  | a :: t, n => by
    cases hp : n.isPrefixOf (a :: t) with
    | true =>
      constructor
      · intro h
        simp [goIndex, hp] at h
      · intro h
        have := h 0
        simp only [List.drop_zero] at this
        rw [this] at hp
        exact Bool.noConfusion hp
    | false =>
      have ih := goIndex_none_iff t n
      constructor
      · intro h j
        have ht : goIndex t n = none := by
          cases hk : goIndex t n with
          | none => rfl
          | some k =>
            simp only [goIndex, hp, Bool.false_eq_true, if_false, hk] at h
            exact Option.noConfusion h
        cases j with
        | zero => simpa using hp
        | succ j => simpa using (ih.mp ht) j
      · intro h
        have ht : goIndex t n = none := ih.mpr (fun j => by simpa using h (j + 1))
        simp [goIndex, hp, ht]

/-- A prefix is no longer than the list. -/
theorem isPrefixOf_le_length {a b : List Nat} (h : a.isPrefixOf b = true) :
    a.length ≤ b.length := by
  rw [List.isPrefixOf_iff_prefix] at h
  exact h.length_le

/-- An occurrence of the six-byte terminator at i needs i + 6 bytes before
the end. -/
theorem endDelim_occurrence_bound {c : List Nat} {i : Nat}
    (h : endDelim.isPrefixOf (c.drop i) = true) : i + 6 ≤ c.length := by
  have hl := isPrefixOf_le_length h
  rw [List.length_drop] at hl
  have h6 : endDelim.length = 6 := rfl
  rw [h6] at hl
  omega

/-- Reduce an unbounded no-occurrence statement to a bounded check. -/
theorem no_occurrence_of_ball (c n : List Nat) (hn : n = [] → False)
    (h : ∀ j, j < c.length + 1 → n.isPrefixOf (c.drop j) = false) :
    ∀ j, n.isPrefixOf (c.drop j) = false := by
  intro j
  by_cases hj : j < c.length + 1
  · exact h j hj
  · have hd : c.drop j = [] := List.drop_eq_nil_of_le (by omega)
    rw [hd]
    cases n with
    | nil => exact absurd rfl hn
    | cons a t => rfl

/-- Claim C1 (amended): an input that begins with the opening line and whose
first terminator occurrence does not overlap the opening delimiter (its
index is at least 4) is split into the bytes strictly between the opening
delimiter and that first terminator, and everything after the terminator,
with no error; an input without the opening line keeps an empty metadata
block and a byte-identical body.  The amendment excludes overlapping first
occurrences, where the source panics instead of returning (see the
counterexample and claim C10). -/
theorem splitContent_wellformed_split :
    (∀ (c : List Nat) (i : Nat),
        startDelim.isPrefixOf c = true →
        endDelim.isPrefixOf (c.drop i) = true →
        (∀ j, j < i → endDelim.isPrefixOf (c.drop j) = false) →
        4 ≤ i →
        splitContent c = some (Except.ok ((c.take i).drop 4, c.drop (i + 6)))) ∧
    (∀ c : List Nat, startDelim.isPrefixOf c = false →
        splitContent c = some (Except.ok ([], c))) := by
  constructor
  · intro c i hpre h1 h2 h4
    have hidx := goIndex_first i c endDelim h1 h2
    have hbound := endDelim_occurrence_bound h1
    have hs1 : goSlice c startDelim.length i = some ((c.take i).drop 4) := by
      have h4len : startDelim.length = 4 := rfl
      rw [h4len]
      unfold goSlice
      rw [if_pos ⟨h4, by omega⟩]
    have hs2 : goSlice c (i + endDelim.length) c.length = some (c.drop (i + 6)) := by
      have h6len : endDelim.length = 6 := rfl
      rw [h6len]
      unfold goSlice
      rw [if_pos ⟨hbound, le_refl c.length⟩, List.take_length]
    simp only [splitContent, hpre, if_true, hidx, hs1, hs2]
  · intro c h
    simp [splitContent, h]

/-- Witness for claim C1: the TestSplit document, whose first terminator
occurrence is at index 40. -/
theorem splitContent_wellformed_split_witness :
    splitContent wellFormedDoc =
      some (Except.ok (bytesOf ("title: Testing a new page generator!"),
        bytesOf ("# Yup\n\nThis **works**!\n"))) := by
  have h := splitContent_wellformed_split.1 wellFormedDoc 40 (by decide) (by decide)
    (by decide) (by decide)
  exact h.trans (by decide)

/-- Claim C1 counterexample: overlapDoc begins with the opening line and
contains the terminator (first occurrence at index 3, inside the opening
delimiter), yet splitContent neither returns a split nor an error: the
metadata slice expression is out of bounds, a Go panic. -/
theorem splitContent_overlap_loses_split :
    startDelim.isPrefixOf overlapDoc = true ∧
    goIndex overlapDoc endDelim = some 3 ∧
    splitContent overlapDoc = none ∧
    splitContent overlapDoc ≠ some (Except.ok ([], bytesOf ("hello"))) := by
  refine ⟨by decide, by decide, by decide, by decide⟩

/-- Claim C2: splitContent returns the missing-terminator error exactly for
the inputs that begin with the opening delimiter but carry no occurrence of
the terminator at any position of the scanned bytes. -/
theorem splitContent_missing_terminator_iff (c : List Nat) :
    splitContent c = some (Except.error ("No end delimiter found for metadata!")) ↔
      (startDelim.isPrefixOf c = true ∧ ∀ j, endDelim.isPrefixOf (c.drop j) = false) := by
  constructor
  · intro h
    cases hpre : startDelim.isPrefixOf c with
    | false => simp [splitContent, hpre] at h
    | true =>
      refine ⟨rfl, ?_⟩
      cases hidx : goIndex c endDelim with
      | none => exact (goIndex_none_iff c endDelim).mp hidx
      | some i =>
        exfalso
        simp only [splitContent, hpre, if_true, hidx] at h
        cases h1 : goSlice c startDelim.length i with
        | none => rw [h1] at h; simp at h
        | some fm =>
          cases h2 : goSlice c (i + endDelim.length) c.length with
          | none => rw [h1, h2] at h; simp at h
          | some body => rw [h1, h2] at h; simp at h
  · intro h
    obtain ⟨hpre, hnone⟩ := h
    have hidx : goIndex c endDelim = none := (goIndex_none_iff c endDelim).mpr hnone
    simp [splitContent, hpre, hidx]

/-- Witness for claim C2 at a concrete unterminated document. -/
theorem splitContent_missing_terminator_iff_witness :
    splitContent (bytesOf ("---\ntitle: x\nno end here")) =
      some (Except.error ("No end delimiter found for metadata!")) := by
  refine (splitContent_missing_terminator_iff (bytesOf ("---\ntitle: x\nno end here"))).mpr
    ⟨by decide, no_occurrence_of_ball _ _ (by decide) (by decide)⟩

/-- Claim C10 (code bug): on the empty-front-matter document the terminator
is first found at index 3, smaller than the opening delimiter length 4, the
metadata slice expression content[4:3] violates the Go slice bounds and the
call panics rather than staying in range. -/
theorem splitContent_overlap_slice_out_of_range :
    goIndex overlapDocBody endDelim = some 3 ∧
    goSlice overlapDocBody startDelim.length 3 = none ∧
    splitContent overlapDocBody = none := by
  refine ⟨by decide, by decide, by decide⟩

/-- Claim C3 (code bug): the decoder unconditionally parses the Date string,
so a metadata block with no date field (the Date string keeps the Go zero
value, the empty string) is rejected with the bad-timestamp error instead
of succeeding with an unset timestamp; a present but unparsable date does
error as claimed, and a well-formed date decodes into the record. -/
theorem UnmarshalYAML_empty_date_errors :
    Metadata.UnmarshalYAML (metadataTime.mk ("Testing a new page generator!") "" "") =
      Except.error ("cannot parse " ++ "" ++ " with layout 2006-01-02 15:04:05") ∧
    Metadata.UnmarshalYAML (metadataTime.mk ("T") "" ("not a date")) =
      Except.error ("cannot parse not a date with layout 2006-01-02 15:04:05") ∧
    Metadata.UnmarshalYAML (metadataTime.mk ("T") ("post") ("2014-05-01 10:30:00")) =
      Except.ok (Metadata.mk ("T") ("post") (some (GoTime.mk 2014 5 1 10 30 0))) := by
  refine ⟨by decide, by decide, by decide⟩

/-- How one Parse call moves the parseError slot: its parse outcome folded
into the incoming state. -/
theorem Parse_state (st : Option String) (fp : String) (bytes : Option (List Nat))
    (st2 : Option String) (h : ContentItem.Parse st fp bytes = some st2) :
    st2 = recordOutcome st (parseContent fp bytes) := by
  unfold ContentItem.Parse at h
  unfold recordOutcome
  cases hp : parseContent fp bytes with
  | none => rw [hp] at h; exact Option.noConfusion h
  | some o =>
    rw [hp] at h
    cases o with
    | none => simp at h; exact h.symm
    | some e => simp at h; exact h.symm

mutual
/-- The crawl of one entry moves the parseError slot by folding the entry's
parse outcomes over it. -/
theorem crawlEntry_state (path : String) (t : FsTree) (st st2 : Option String)
    (c : ContentItem) (h : crawlEntry path t st = some (c, st2)) :
    st2 = (outcomesTree path t).foldl recordOutcome st := by
  cases t with
  | file name bytes =>
    cases hc : isContentFile name with
    | true =>
      simp only [crawlEntry, hc, if_true] at h
      cases hp : ContentItem.Parse st (path ++ "/" ++ name) bytes with
      | none => rw [hp] at h; exact Option.noConfusion h
      | some st3 =>
        rw [hp] at h
        simp at h
        rw [h.2.symm]
        simp only [outcomesTree, hc, if_true, List.foldl_cons, List.foldl_nil]
        exact Parse_state st _ bytes st3 hp
    | false =>
      simp only [crawlEntry, hc, Bool.false_eq_true, if_false, Option.some.injEq] at h
      simp only [outcomesTree, hc, Bool.false_eq_true, if_false, List.foldl_nil]
      exact (congrArg Prod.snd h).symm
  | dir name entries =>
    cases hc : isContentFile name with
    | true =>
      simp only [crawlEntry, hc, if_true] at h
      cases hp : ContentItem.Parse st (path ++ "/" ++ name) none with
      | none => rw [hp] at h; exact Option.noConfusion h
      | some st3 =>
        rw [hp] at h
        simp at h
        rw [h.2.symm]
        simp only [outcomesTree, hc, if_true, List.foldl_cons, List.foldl_nil]
        exact Parse_state st _ none st3 hp
    | false =>
      simp only [crawlEntry, hc, Bool.false_eq_true, if_false] at h
      cases he : crawlEntries (path ++ "/" ++ name) entries st with
      | none => rw [he] at h; exact Option.noConfusion h
      | some p =>
        rw [he] at h
        obtain ⟨cs, st3⟩ := p
        simp at h
        rw [h.2.symm]
        simp only [outcomesTree, hc, Bool.false_eq_true, if_false]
        exact (crawlEntries_state (path ++ "/" ++ name) entries st st3 cs he).1

/-- The crawl of a listing folds all outcomes over the slot and produces one
child per entry, failures notwithstanding. -/
theorem crawlEntries_state (path : String) (f : FsForest) (st st2 : Option String)
    (cs : ContentForest) (h : crawlEntries path f st = some (cs, st2)) :
    st2 = (outcomesForest path f).foldl recordOutcome st ∧ cs.length = f.length := by
  cases f with
  | nil =>
    simp only [crawlEntries, Option.some.injEq, Prod.mk.injEq] at h
    obtain ⟨h1, h2⟩ := h
    refine ⟨?_, ?_⟩
    · rw [← h2]
      rfl
    · rw [← h1]
      rfl
  | cons e rest =>
    simp only [crawlEntries] at h
    cases he : crawlEntry path e st with
    | none => rw [he] at h; exact Option.noConfusion h
    | some p =>
      obtain ⟨c1, st3⟩ := p
      rw [he] at h
      dsimp only at h
      cases hr : crawlEntries path rest st3 with
      | none => rw [hr] at h; exact Option.noConfusion h
      | some q =>
        obtain ⟨cs1, st4⟩ := q
        rw [hr] at h
        dsimp only at h
        simp only [Option.some.injEq, Prod.mk.injEq] at h
        obtain ⟨hcs, hst⟩ := h
        have hhead := crawlEntry_state path e st st3 c1 he
        have htail := crawlEntries_state path rest st3 st4 cs1 hr
        constructor
        · rw [← hst, htail.1, hhead]
          simp [outcomesForest, List.foldl_append]
        · rw [← hcs]
          simp only [ContentForest.length, FsForest.length, htail.2]
end

/-- Claim C4 (amended): after a completed crawl of a directory the parseError
slot equals the fold of every per-file parse outcome in traversal order over
the incoming slot — so with several failures the LAST one wins, each failure
overwriting the slot — and the crawl still processes every sibling entry:
the directory node carries one child per listing entry. -/
theorem readDir_parseError_last (name path : String) (entries : FsForest)
    (st st2 : Option String) (c : ContentItem)
    (h : readDir name path entries st = some (c, st2)) :
    st2 = (outcomesForest (path ++ "/" ++ name) entries).foldl recordOutcome st ∧
    c.Children.length = entries.length := by
  unfold readDir at h
  cases hc : crawlEntries (path ++ "/" ++ name) entries st with
  | none => rw [hc] at h; exact Option.noConfusion h
  | some p =>
    rw [hc] at h
    obtain ⟨cs, st3⟩ := p
    simp at h
    have hmain := crawlEntries_state (path ++ "/" ++ name) entries st st3 cs hc
    constructor
    · rw [h.2.symm]
      exact hmain.1
    · rw [h.1.symm]
      simpa [ContentItem.Children] using hmain.2

/-- Witness for claim C4: the two-failure listing, where the slot ends at the
second failure and both children exist. -/
theorem readDir_parseError_last_witness :
    (some ("open content/./b.md: read error") : Option String) =
      (outcomesForest ("content/.") twoFailures).foldl recordOutcome none ∧
    twoFailuresItem.Children.length = twoFailures.length := by
  exact readDir_parseError_last (".") ("content") twoFailures none
    (some ("open content/./b.md: read error")) twoFailuresItem rfl

/-- Claim C4 counterexample: with two failing sibling parses the slot holds
the second failure after the crawl, not the first — first failure does not
win. -/
theorem crawl_parseError_not_first :
    (readDir (".") ("content") twoFailures none).map (fun p => p.2) =
      some (some ("open content/./b.md: read error")) ∧
    some (some ("open content/./b.md: read error")) ≠
      (some (some ("open content/./a.md: read error")) : Option (Option String)) := by
  refine ⟨by decide, by decide⟩

/-- Claim C5 (amended): when the processor fails on a node, Process records
the error into processError (overwriting the slot with it) and returns at
once: the failing node keeps its URL but its children are returned exactly
as they were — no URL and no extra is attached anywhere below it — while
the remaining sibling subtrees are still processed, with the recorded error
as their incoming state. -/
theorem processItem_error_skips_subtree
    (proc : ContentItem → Except String String) (fn fp u : String) (ty : ContentType)
    (ch : ContentForest) (ex : Option String) (rest : ContentForest)
    (st : Option String) (e : String)
    (h : proc (ContentItem.mk fn fp (computeUrl fp) ty ch ex) = Except.error e) :
    processItem proc (ContentItem.mk fn fp u ty ch ex) st =
      (ContentItem.mk fn fp (computeUrl fp) ty ch ex, some e) ∧
    processForest proc (ContentForest.cons (ContentItem.mk fn fp u ty ch ex) rest) st =
      (ContentForest.cons (ContentItem.mk fn fp (computeUrl fp) ty ch ex)
        (processForest proc rest (some e)).1,
       (processForest proc rest (some e)).2) := by
  have h1 : processItem proc (ContentItem.mk fn fp u ty ch ex) st =
      (ContentItem.mk fn fp (computeUrl fp) ty ch ex, some e) := by
    simp [processItem, h]
  refine ⟨h1, ?_⟩
  simp [processForest, h1]

/-- Witness for claim C5: the failing directory node with its child and its
sibling. -/
theorem processItem_error_skips_subtree_witness :
    processItem procFailsOnBad badNode none =
      (ContentItem.mk ("bad.html") ("content/./bad") (computeUrl ("content/./bad"))
        ContentType.directory badChildren none, some ("boom")) ∧
    processForest procFailsOnBad (ContentForest.cons badNode goodSiblings) none =
      (ContentForest.cons
        (ContentItem.mk ("bad.html") ("content/./bad") (computeUrl ("content/./bad"))
          ContentType.directory badChildren none)
        (processForest procFailsOnBad goodSiblings (some ("boom"))).1,
       (processForest procFailsOnBad goodSiblings (some ("boom"))).2) := by
  exact processItem_error_skips_subtree procFailsOnBad ("bad.html") ("content/./bad") ""
    ContentType.directory badChildren none goodSiblings none ("boom") rfl

/-- Claim C5 counterexample: in the processed concrete tree the error is
recorded and the sibling subtree of the failing node was processed, but the
child of the failing node was not visited: it keeps an empty URL (whereas
its computed URL is nonempty) and no extra value. -/
theorem Process_skips_failed_node_children :
    (ContentItem.Process procFailsOnBad processDemoTree none).2 = some ("boom") ∧
    (((ContentItem.Process procFailsOnBad processDemoTree none).1.Children.get? 0).bind
        (fun b => b.Children.get? 0)).map ContentItem.Url = some ("") ∧
    computeUrl ("content/./bad/kid.html") = ("/bad/kid.html") ∧
    (((ContentItem.Process procFailsOnBad processDemoTree none).1.Children.get? 0).bind
        (fun b => b.Children.get? 0)).map ContentItem.Extra = some none ∧
    ((ContentItem.Process procFailsOnBad processDemoTree none).1.Children.get? 1).map
        ContentItem.Extra = some (some ("v")) := by
  refine ⟨rfl, rfl, rfl, rfl, rfl⟩

/-- Claim C6 (code bug): in the concurrent Write phase the mkdir of a
Directory node is performed inside the spawned unit of that node, and the
children are dispatched without any synchronisation on it.  On the concrete
tree the queue holds the directory unit and the asset unit, the execution
order running the asset copy first is realizable, and in that order the
child write runs before its parent directory is created — the claimed
guarantee does not hold. -/
theorem write_child_can_run_before_parent_mkdir :
    ContentItem.Write ("static") dirWithAsset = [dirUnit, assetUnit] ∧
    realizableOrder (ContentItem.Write ("static") dirWithAsset) [assetUnit, dirUnit] ∧
    [assetUnit, dirUnit].indexOf assetUnit < [assetUnit, dirUnit].indexOf dirUnit := by
  have hq : ContentItem.Write ("static") dirWithAsset = [dirUnit, assetUnit] := rfl
  refine ⟨hq, ?_, by decide⟩
  unfold realizableOrder
  rw [hq]
  exact List.Perm.swap assetUnit dirUnit []

/-- One signal per registered unit: when every unit eventually signals, the
Wait loop drains the whole queue and observes its length. -/
theorem Wait_all_true : ∀ (l : List Bool), (∀ b ∈ l, b = true) →
    ContentQueue.Wait l = some l.length
  | [], _ => rfl
  | b :: rest, h => by
    have hb := h b (List.mem_cons_self b rest)
    have ih := Wait_all_true rest (fun x hx => h x (List.mem_cons_of_mem b hx))
    simp [ContentQueue.Wait, hb, ih]

mutual
/-- Write registers exactly one unit per node of the tree. -/
theorem writeItem_length (path : String) (c : ContentItem) :
    (writeItem path c).length = nodesItem c := by
  cases c with
  | mk fn fp u ty ch ex =>
    simp only [writeItem, nodesItem, List.length_cons]
    rw [writeForest_length (path ++ "/" ++ fn) ch]

/-- Write registers exactly one unit per node of the forest. -/
theorem writeForest_length (path : String) (f : ContentForest) :
    (writeForest path f).length = nodesForest f := by
  cases f with
  | nil => rfl
  | cons c rest =>
    simp only [writeForest, nodesForest, List.length_append]
    rw [writeItem_length path c, writeForest_length path rest]
end

/-- Claim C7 (amended): the blocking Wait returns only after one completion
signal per registered unit has been observed, and Write registers one unit
per node of the tree — directories included.  When every unit signals,
Wait observes exactly the total node count, regardless of completion order
(the per-unit channels are buffered, so the order units finish in does not
change the count). -/
theorem Wait_returns_after_all_node_signals (path : String) (c : ContentItem)
    (sig : WriteUnit → Bool) (h : ∀ u ∈ ContentItem.Write path c, sig u = true) :
    ContentQueue.Wait ((ContentItem.Write path c).map sig) = some (nodesItem c) := by
  have hall : ∀ b ∈ (ContentItem.Write path c).map sig, b = true := by
    intro b hb
    obtain ⟨u, hu, hub⟩ := List.mem_map.mp hb
    rw [← hub]
    exact h u hu
  rw [Wait_all_true _ hall, List.length_map]
  unfold ContentItem.Write
  rw [writeItem_length path c]

/-- Witness for claim C7: all units of the concrete tree signal and Wait
observes both of them. -/
theorem Wait_returns_after_all_node_signals_witness :
    ContentQueue.Wait ((ContentItem.Write ("static") dirWithAsset).map (fun _ => true)) =
      some (nodesItem dirWithAsset) := by
  exact Wait_returns_after_all_node_signals ("static") dirWithAsset (fun _ => true)
    (fun u _ => rfl)

/-- Claim C7 counterexample: the concrete tree has exactly one Content plus
Asset node, yet Wait returns only after two signals — the Directory node is
also a registered unit the claim did not count. -/
theorem Wait_observes_directory_signals :
    ContentQueue.Wait ((ContentItem.Write ("static") dirWithAsset).map (fun _ => true)) =
      some 2 ∧
    writeTargetsItem dirWithAsset = 1 ∧
    ContentQueue.Wait ((ContentItem.Write ("static") dirWithAsset).map (fun _ => true)) ≠
      some (writeTargetsItem dirWithAsset) := by
  refine ⟨rfl, rfl, by decide⟩

/-- Two strings with the same character data are equal. -/
theorem string_eq_of_data {a b : String} (h : a.data = b.data) : a = b := by
  cases a
  cases b
  exact congrArg String.mk h

/-- Packing a character list and reading it back is the identity. -/
theorem data_asString (l : List Char) : (l.asString).data = l := rfl

/-- Dropping a satisfying run twice is the same as dropping it once. -/
theorem dropWhile_self_idem (p : Char → Bool) : ∀ l : List Char,
    (l.dropWhile p).dropWhile p = l.dropWhile p
  | [] => rfl
  | c :: rest => by
    cases hp : p c with
    | true => simpa [List.dropWhile_cons, hp] using dropWhile_self_idem p rest
    | false => simp [List.dropWhile_cons, hp]

/-- Claim C8: for every declared language token and block text, the custom
renderer emits exactly the highlight tag wrapping the block text with its
trailing white space stripped: the emitted fragment is the stated
concatenation, the stripped text is a prefix of the block text whose
removed suffix consists of white space only, and stripping is idempotent
(nothing but the trailing white space is altered). -/
theorem BlockCode_emits_highlight_tag (text lang : String) :
    BlockCode text lang =
      ("<highlight language=\"" ++ lang ++ "\">" ++ goTrimRightFunc text goIsSpace ++
        "</highlight>") ∧
    (∃ ws : List Char, (goTrimRightFunc text goIsSpace).data ++ ws = text.data ∧
      ws.all goIsSpace = true) ∧
    goTrimRightFunc (goTrimRightFunc text goIsSpace) goIsSpace =
      goTrimRightFunc text goIsSpace := by
  refine ⟨?_, ⟨(text.data.reverse.takeWhile goIsSpace).reverse, ?_, ?_⟩, ?_⟩
  · apply string_eq_of_data
    simp only [BlockCode, List.foldl_cons, List.foldl_nil, String.data_append]
    simp [List.append_assoc]
  · unfold goTrimRightFunc
    rw [data_asString, ← List.reverse_append, List.takeWhile_append_dropWhile,
      List.reverse_reverse]
  · rw [List.all_eq_true]
    intro x hx
    rw [List.mem_reverse] at hx
    exact List.mem_takeWhile_imp hx
  · unfold goTrimRightFunc
    rw [data_asString, List.reverse_reverse, dropWhile_self_idem]

/-- Claim C9 (spec-modelled): the attribute parser is total by construction
and shows every behaviour its tests pin down: empty input, one pair, two
pairs, single quotes behaving as double quotes, a backslash-escaped double
quote and a backslash-escaped single quote unescaped inside a value, and
malformed input (no equals sign, unterminated quote) yielding the empty
mapping without an error. -/
theorem parseAttributes_test_vectors :
    parseAttributes ("") = [] ∧
    parseAttributes ("language=\"php\"") = [("language", "php")] ∧
    parseAttributes ("language=\"php\" title=\"test\"") =
      [("language", "php"), ("title", "test")] ∧
    parseAttributes ("language='php'") = [("language", "php")] ∧
    parseAttributes ("title=\"A \\\" quote\"") = [("title", "A \" quote")] ∧
    parseAttributes ("title=\"A \\' different quote\"") =
      [("title", "A ' different quote")] ∧
    parseAttributes ("bad") = [] ∧
    parseAttributes ("bad='mismatch") = [] := by
  refine ⟨rfl, rfl, rfl, rfl, rfl, rfl, rfl, rfl⟩
